import Mathlib

/-!
Verification of the in-memory task/user manager (TypeScript-Starter-Kit).

Shallow embedding of the decision-bearing code:
  * entity validation (`Task.validate`, `User.validate`, `validateTaskData`,
    `validateUserData` from `src/utils/validators.ts` and the model classes);
  * the task query engine (`TaskService.applyFilters`, `applySorting`,
    `getAll`);
  * the stateful CRUD services (`TaskService`, `UserService`) as explicit
    state-passing functions.

JS `Date` values are modelled as `Int` timestamps (comparison of `Date`s in JS
coincides with comparison of their numeric time values).  JS string `.trim()`
is modelled by `jsTrim`, JS regular-expression matching for the e-mail pattern
by `isValidEmail` (see the comment there).  `ApiResponse.timestamp` is a pure
clock read and is left out of the response model.
-/

/-- Enumeration `Priority` from `src/models/types.ts` (`low`/`medium`/`high`/`urgent`). -/
inductive Priority where
  | low | medium | high | urgent
deriving DecidableEq

/-- Enumeration `TaskStatus` from `src/models/types.ts` (`todo`/`in-progress`/`done`/`cancelled`). -/
inductive TaskStatus where
  | todo | inProgress | done | cancelled
deriving DecidableEq

/-- Enumeration `UserRole` from `src/models/types.ts` (`admin`/`manager`/`user`/`guest`). -/
inductive UserRole where
  | admin | manager | user | guest
deriving DecidableEq

/-- Characters matched by the JS regex class `\s` (the common ones: space, tab,
newline, carriage return, vertical tab, form feed; the exotic Unicode space
code points never occur in the inputs considered here). -/
def isJsSpace (c : Char) : Bool :=
  c == ' ' || c == '\t' || c == '\n' || c == '\r' || c == Char.ofNat 11 || c == Char.ofNat 12

/-- Model of JS `String.prototype.trim`: drop leading and trailing whitespace. -/
def jsTrim (s : String) : String :=
  String.mk (((s.data.dropWhile isJsSpace).reverse.dropWhile isJsSpace).reverse)

/-- Characters matched by the regex class `[^\s@]` used in the e-mail pattern. -/
def okEmailChar (c : Char) : Bool :=
  !isJsSpace c && c != '@'

/-- Matching of the tail pattern `[^\s@]+\.[^\s@]+$` against a character list:
every character is in the class (note `'.'` itself is in the class) and some
occurrence of `'.'` lies at an interior position, so that a nonempty class run
fits both before and after it. -/
def emailTailOk (d : List Char) : Bool :=
  d.all okEmailChar && ((d.drop 1).dropLast.contains '.')

/-- Model of `isValidEmail` from `src/utils/validators.ts` (also `User.isValidEmail`):
the regex `/^[^\s@]+@[^\s@]+\.[^\s@]+$/`.  Because the class `[^\s@]` excludes
`'@'`, the leading `[^\s@]+@` can only match with the (maximal) leading run of
class characters followed by a literal `'@'`; the rest of the pattern is
`emailTailOk`. -/
def isValidEmail (email : String) : Bool :=
  let cs := email.data
  let l := cs.takeWhile okEmailChar
  match cs.dropWhile okEmailChar with
  | c :: d => !l.isEmpty && c == '@' && emailTailOk d
  | [] => false

/-- Validation outcome `{ isValid, errors }` returned by all validators. -/
structure ValidationResult where
  isValid : Bool
  errors : List String
deriving DecidableEq

/-- Task entity (`Task` class from `src/models/Task.ts`).  The private
`_completed` backing field is the `completed` field here. -/
structure TaskModel where
  id : String
  title : String
  description : Option String
  priority : Priority
  status : TaskStatus
  assignedTo : Option String
  createdAt : Int
  updatedAt : Int
  dueDate : Option Int
  tags : List String
  completed : Bool
deriving DecidableEq

/-- Placeholder task used as the default of index lookups that are guarded by
an index bound (never observed). -/
def defTask : TaskModel :=
  ⟨"", "", none, Priority.medium, TaskStatus.todo, none, 0, 0, none, [], false⟩

/-- Model of `Task.validate` (`src/models/Task.ts`): title required and
non-empty after trimming, title at most 200 characters, description (when
present and truthy) at most 1000 characters, due date (when present) not
before the creation date.  JS truthiness of the strings is kept: an empty
title triggers the required error, an empty description skips its length
check. -/
def taskValidate (t : TaskModel) : ValidationResult :=
  let errors : List String :=
    (if t.title == "" || jsTrim t.title == "" then ["Title is required"] else []) ++
    (if t.title != "" && t.title.length > 200 then
       ["Title must be less than 200 characters"] else []) ++
    (match t.description with
     | some d => if d != "" && d.length > 1000 then
         ["Description must be less than 1000 characters"] else []
     | none => []) ++
    (match t.dueDate with
     | some due => if due < t.createdAt then
         ["Due date cannot be before creation date"] else []
     | none => [])
  ⟨errors.length == 0, errors⟩

/-- Candidate task record as consumed by `validateTaskData` (`Partial<ITask>`):
all fields optional; `priority`/`status` carried as raw strings because the
validator performs runtime enumeration checks on unknown data.  Timestamps are
valid instants by construction in this model, so the `isDate` branch of the
source can never fire; the `createdAt` field is not read by `validateTaskData`
and is omitted. -/
structure TaskRec where
  title : Option String := none
  description : Option String := none
  priority : Option String := none
  status : Option String := none
  dueDate : Option Int := none
  tags : Option (List String) := none
deriving DecidableEq

/-- Model of `validateRequired` from `src/utils/validators.ts`, at type
`string | undefined | null` (both `undefined` and `null` collapse to `none`). -/
def validateRequired (v : Option String) (fieldName : String) : Option String :=
  match v with
  | none => some (fieldName ++ " is required")
  | some s => if (jsTrim s).length == 0 then some (fieldName ++ " cannot be empty") else none

/-- Model of `validateStringLength` from `src/utils/validators.ts`. -/
def validateStringLength (value : String) (fieldName : String) (minLength maxLength : Nat) :
    Option String :=
  if value.length < minLength then
    some (fieldName ++ " must be at least " ++ toString minLength ++ " characters long")
  else if value.length > maxLength then
    some (fieldName ++ " must be no more than " ++ toString maxLength ++ " characters long")
  else none

/-- Model of the type guard `isPriority`: membership in `Object.values(Priority)`. -/
def isPriorityStr (s : String) : Bool :=
  s == "low" || s == "medium" || s == "high" || s == "urgent"

/-- Model of the type guard `isTaskStatus`. -/
def isTaskStatusStr (s : String) : Bool :=
  s == "todo" || s == "in-progress" || s == "done" || s == "cancelled"

/-- Model of the type guard `isUserRole`. -/
def isUserRoleStr (s : String) : Bool :=
  s == "admin" || s == "manager" || s == "user" || s == "guest"

/-- Turns an optional error into an error list. -/
def errOpt (e : Option String) : List String :=
  match e with
  | some m => [m]
  | none => []

/-- Model of `validateTaskData` from `src/utils/validators.ts`.  Rule order is
the source order: title (required before length), description length, priority
enumeration, status enumeration.  The due-date branch only tests `isDate`
(always true for `Int` instants) and the tags branches only test runtime
types (always strings here), so neither can contribute an error. -/
def validateTaskData (r : TaskRec) : ValidationResult :=
  let errors : List String :=
    (match r.title with
     | none => []
     | some _ =>
       match validateRequired r.title "Title" with
       | some e => [e]
       | none => errOpt (validateStringLength (r.title.getD "") "Title" 1 200)) ++
    (match r.description with
     | none => []
     | some d => errOpt (validateStringLength d "Description" 0 1000)) ++
    (match r.priority with
     | none => []
     | some p => if !isPriorityStr p then ["Invalid priority value"] else []) ++
    (match r.status with
     | none => []
     | some st => if !isTaskStatusStr st then ["Invalid status value"] else [])
  ⟨errors.length == 0, errors⟩

/-- Candidate user record as consumed by `validateUserData` (`Partial<IUser>`),
with `role` as a raw string for the same reason as in `TaskRec`. -/
structure UserRec where
  name : Option String := none
  email : Option String := none
  role : Option String := none
deriving DecidableEq

/-- Model of `validateUserData` from `src/utils/validators.ts`: name required
then length at most 100, email required then regex, role enumeration. -/
def validateUserData (r : UserRec) : ValidationResult :=
  let errors : List String :=
    (match r.name with
     | none => []
     | some _ =>
       match validateRequired r.name "Name" with
       | some e => [e]
       | none => errOpt (validateStringLength (r.name.getD "") "Name" 1 100)) ++
    (match r.email with
     | none => []
     | some e =>
       match validateRequired r.email "Email" with
       | some m => [m]
       | none => if !isValidEmail e then ["Invalid email format"] else []) ++
    (match r.role with
     | none => []
     | some rl => if !isUserRoleStr rl then ["Invalid user role"] else [])
  ⟨errors.length == 0, errors⟩

/-- Filter specification `TaskFilters` from `src/models/types.ts`: `status` and
`priority` accept a single value or an array (`Sum` of the two shapes). -/
structure TaskFilters where
  status : Option (Sum TaskStatus (List TaskStatus)) := none
  priority : Option (Sum Priority (List Priority)) := none
  assignedTo : Option String := none
  completed : Option Bool := none
  dateRange : Option (Int × Int) := none
  tags : Option (List String) := none

/-- Normalisation `Array.isArray(x) ? x : [x]` used in `applyFilters`. -/
def toValueList {α : Type} (v : Sum α (List α)) : List α :=
  match v with
  | Sum.inl one => [one]
  | Sum.inr l => l

/-- Predicate of `TaskService.applyFilters` (the body of the `tasks.filter`
callback).  JS truthiness of the guards is preserved: a provided `assignedTo`
that is the empty string is falsy and skips the assignee check, and a provided
`tags` array participates only when non-empty (`filters.tags.length > 0`);
enum values and objects are always truthy. -/
def matchesFilters (f : TaskFilters) (t : TaskModel) : Bool :=
  (match f.status with
   | none => true
   | some s => (toValueList s).contains t.status) &&
  (match f.priority with
   | none => true
   | some p => (toValueList p).contains t.priority) &&
  (match f.assignedTo with
   | none => true
   | some a => if a == "" then true else t.assignedTo == some a) &&
  (match f.completed with
   | none => true
   | some b => t.completed == b) &&
  (match f.dateRange with
   | none => true
   | some range => !(t.createdAt < range.1) && !(t.createdAt > range.2)) &&
  (match f.tags with
   | none => true
   | some ts => if ts.isEmpty then true else ts.any (fun tag => t.tags.contains tag))

/-- Model of `TaskService.applyFilters`. -/
def applyFilters (tasks : List TaskModel) (f : TaskFilters) : List TaskModel :=
  tasks.filter (matchesFilters f)

/-- Sort direction `'asc' | 'desc'`. -/
inductive SortOrder where
  | asc | desc
deriving DecidableEq

/-- Comparator of `TaskService.applySorting`, for the sort field read through a
key function `k` (the source indexes `a[sortBy]`; a fixed field always yields
values of one ordered type, abstracted as `K`).  Absent fields are `none`
(JS `undefined`).  Note the `undefined` branches return before the
`sortOrder === 'desc'` negation, exactly as in the source. -/
def compareTasks {K : Type} [LinearOrder K] (k : TaskModel → Option K) (ord : SortOrder)
    (a b : TaskModel) : Int :=
  match k a, k b with
  | none, none => 0
  | none, some _ => if ord = SortOrder.asc then 1 else -1
  | some _, none => if ord = SortOrder.asc then -1 else 1
  | some x, some y =>
    let comparison : Int := if x < y then -1 else if y < x then 1 else 0
    if ord = SortOrder.desc then -comparison else comparison

/-- Relation "the comparator does not order `b` strictly before `a`", the sense
in which a comparator-based stable sort orders its output. -/
def sortLE {K : Type} [LinearOrder K] (k : TaskModel → Option K) (ord : SortOrder)
    (a b : TaskModel) : Prop :=
  compareTasks k ord a b ≤ 0

instance {K : Type} [LinearOrder K] (k : TaskModel → Option K) (ord : SortOrder) :
    DecidableRel (sortLE k ord) :=
  fun a b => inferInstanceAs (Decidable (compareTasks k ord a b ≤ 0))

/-- Model of `TaskService.applySorting`: `Array.prototype.sort` with the above
comparator.  ECMAScript mandates a stable sort; the stable `insertionSort` is
used as its functional model. -/
def applySorting {K : Type} [LinearOrder K] (k : TaskModel → Option K) (ord : SortOrder)
    (tasks : List TaskModel) : List TaskModel :=
  tasks.insertionSort (sortLE k ord)

/-- Pagination options from `src/models/types.ts`; `sortBy : keyof ITask` is
modelled as the key-reading function for the named field. -/
structure PaginationOptions (K : Type) where
  page : Nat
  limit : Nat
  sortBy : Option (TaskModel → Option K) := none
  sortOrder : Option SortOrder := none

/-- Model of `Array.prototype.slice(start, end)` for `0 ≤ start ≤ end`
(the only use in `getAll` has `end = start + limit`). -/
def jsSlice {α : Type} (l : List α) (start stop : Nat) : List α :=
  (l.take stop).drop start

/-- Model of `Math.ceil(total / limit)` for a positive integer `limit`
(the pagination arithmetic of `getAll`). -/
def ceilNat (total limit : Nat) : Nat :=
  (total + limit - 1) / limit

/-- Payload of the `getAll` response. -/
structure QueryData where
  tasks : List TaskModel
  total : Nat
  page : Option Nat
  totalPages : Option Nat
deriving DecidableEq

/-- Filtered and (when a sort key is given) sorted working list of
`TaskService.getAll`, before pagination. -/
def pipeline {K : Type} [LinearOrder K] (tasks : List TaskModel) (filters : Option TaskFilters)
    (pg : Option (PaginationOptions K)) : List TaskModel :=
  let ft := match filters with
    | none => tasks
    | some f => applyFilters tasks f
  match pg with
  | some p =>
    match p.sortBy with
    | some k => applySorting k (p.sortOrder.getD SortOrder.asc) ft
    | none => ft
  | none => ft

/-- Model of `TaskService.getAll` (data payload): filter, sort, then paginate
with slice `[(page-1)*limit, (page-1)*limit + limit)` and
`totalPages = ceil(total/limit)`. -/
def getAllData {K : Type} [LinearOrder K] (tasks : List TaskModel) (filters : Option TaskFilters)
    (pg : Option (PaginationOptions K)) : QueryData :=
  let ft := pipeline tasks filters pg
  let total := ft.length
  match pg with
  | some p =>
    let startIndex := (p.page - 1) * p.limit
    ⟨jsSlice ft startIndex (startIndex + p.limit), total, some p.page,
      some (ceilNat total p.limit)⟩
  | none => ⟨ft, total, none, none⟩

/-- Response wrapper `ApiResponse<T>` (timestamp omitted; it is a clock read). -/
structure ApiResp (α : Type) where
  success : Bool
  data : Option α
  error : Option String
deriving DecidableEq

/-- Model of `TaskService.getAll`: the pure body never throws, so the response
is always successful. -/
def getAll {K : Type} [LinearOrder K] (tasks : List TaskModel) (filters : Option TaskFilters)
    (pg : Option (PaginationOptions K)) : ApiResp QueryData :=
  ⟨true, some (getAllData tasks filters pg), none⟩

/-- Model of `Array.prototype.findIndex` (`none` in place of `-1`). -/
def findIndex {α : Type} (p : α → Bool) : List α → Option Nat
  | [] => none
  | a :: as => if p a then some 0 else (findIndex p as).map (· + 1)

/-- Creation input for a task (`CreateTaskInput` minus the generated fields). -/
structure TaskInput where
  title : String
  description : Option String := none
  priority : Option Priority := none
  assignedTo : Option String := none
  dueDate : Option Int := none
  tags : Option (List String) := none

/-- The `Task` constructor: status starts at `TODO`, `_completed` at `false`,
priority defaults to `MEDIUM` (enum strings are truthy), tags default to `[]`. -/
def newTask (input : TaskInput) (id : String) (now : Int) : TaskModel :=
  ⟨id, input.title, input.description, input.priority.getD Priority.medium,
    TaskStatus.todo, input.assignedTo, now, now, input.dueDate, input.tags.getD [], false⟩

/-- State of a `TaskService` instance. -/
structure TaskSvcState where
  tasks : List TaskModel
  nextId : Nat
deriving DecidableEq

/-- Model of `TaskService.create`: build the task (consuming an id from
`generateId`, which increments `nextId` even when validation then fails),
validate, and push only on success. -/
def taskCreate (input : TaskInput) (now : Int) (s : TaskSvcState) :
    ApiResp TaskModel × TaskSvcState :=
  let task := newTask input ("task_" ++ toString s.nextId) now
  let validation := taskValidate task
  if validation.isValid then
    (⟨true, some task, none⟩, ⟨s.tasks ++ [task], s.nextId + 1⟩)
  else
    (⟨false, none, some ("Validation failed: " ++ String.intercalate ", " validation.errors)⟩,
      ⟨s.tasks, s.nextId + 1⟩)

/-- Update payload for `TaskService.update` (`Partial<ITask>`; only the fields
the method reads are modelled — it never touches `completed`). -/
structure TaskUpdates where
  title : Option String := none
  description : Option String := none
  priority : Option Priority := none
  assignedTo : Option String := none
  dueDate : Option Int := none
  tags : Option (List String) := none
  status : Option TaskStatus := none

/-- The field assignments of `TaskService.update` (each guarded by
`!== undefined`), followed by the `updatedAt` refresh.  `completed` is left
untouched — the source never synchronises it with a `status` update. -/
def applyTaskUpdates (t : TaskModel) (u : TaskUpdates) (now : Int) : TaskModel :=
  { t with
    title := u.title.getD t.title
    description := match u.description with | some d => some d | none => t.description
    priority := u.priority.getD t.priority
    assignedTo := match u.assignedTo with | some a => some a | none => t.assignedTo
    dueDate := match u.dueDate with | some d => some d | none => t.dueDate
    tags := u.tags.getD t.tags
    status := u.status.getD t.status
    updatedAt := now }

/-- Model of `TaskService.update`: the task object is mutated in place (by
reference) before validation runs, so the mutated task stays in the collection
even when the method then reports a validation failure. -/
def taskUpdate (id : String) (u : TaskUpdates) (now : Int) (s : TaskSvcState) :
    ApiResp TaskModel × TaskSvcState :=
  match findIndex (fun t => t.id == id) s.tasks with
  | none => (⟨false, none, some ("Task with ID " ++ id ++ " not found")⟩, s)
  | some i =>
    let t' := applyTaskUpdates (s.tasks.getD i defTask) u now
    let s' : TaskSvcState := ⟨s.tasks.set i t', s.nextId⟩
    let validation := taskValidate t'
    if validation.isValid then
      (⟨true, some t', none⟩, s')
    else
      (⟨false, none, some ("Validation failed: " ++ String.intercalate ", " validation.errors)⟩,
        s')

/-- The `Task.markComplete` method: sets `_completed`, `status = DONE` and
refreshes `updatedAt`; `TaskService.markComplete` applies it to the found task. -/
def taskMarkComplete (id : String) (now : Int) (s : TaskSvcState) :
    ApiResp TaskModel × TaskSvcState :=
  match findIndex (fun t => t.id == id) s.tasks with
  | none => (⟨false, none, some ("Task with ID " ++ id ++ " not found")⟩, s)
  | some i =>
    let t' := { s.tasks.getD i defTask with
      completed := true, status := TaskStatus.done, updatedAt := now }
    (⟨true, some t', none⟩, ⟨s.tasks.set i t', s.nextId⟩)

/-- The `Task.markIncomplete` method, applied to the task with the given id. -/
def taskMarkIncomplete (id : String) (now : Int) (s : TaskSvcState) :
    ApiResp TaskModel × TaskSvcState :=
  match findIndex (fun t => t.id == id) s.tasks with
  | none => (⟨false, none, some ("Task with ID " ++ id ++ " not found")⟩, s)
  | some i =>
    let t' := { s.tasks.getD i defTask with
      completed := false, status := TaskStatus.todo, updatedAt := now }
    (⟨true, some t', none⟩, ⟨s.tasks.set i t', s.nextId⟩)

/-- Model of `TaskService.delete` (`splice(index, 1)`). -/
def taskDelete (id : String) (s : TaskSvcState) : ApiResp Bool × TaskSvcState :=
  match findIndex (fun t => t.id == id) s.tasks with
  | none => (⟨false, none, some ("Task with ID " ++ id ++ " not found")⟩, s)
  | some i => (⟨true, some true, none⟩, ⟨s.tasks.eraseIdx i, s.nextId⟩)

/-- Model of `TaskService.clear`. -/
def taskClear (_s : TaskSvcState) : TaskSvcState :=
  ⟨[], 1⟩

/-- User preferences bundle (`UserPreferences`). -/
structure Preferences where
  theme : String
  notifications : Bool
  language : String
  timezone : String
deriving DecidableEq

/-- Preference update payload (`Partial<UserPreferences>`). -/
structure PrefUpdates where
  theme : Option String := none
  notifications : Option Bool := none
  language : Option String := none
  timezone : Option String := none

/-- Object spread `{ ...prefs, ...updates }` used by `updatePreferences` and
the `User` constructor. -/
def mergePrefs (prefs : Preferences) (u : PrefUpdates) : Preferences :=
  ⟨u.theme.getD prefs.theme, u.notifications.getD prefs.notifications,
    u.language.getD prefs.language, u.timezone.getD prefs.timezone⟩

/-- User entity (`User` class from `src/models/User.ts`), including the
private `_loginAttempts` / `_isLocked` backing fields. -/
structure UserModel where
  id : String
  name : String
  email : String
  role : UserRole
  isActive : Bool
  createdAt : Int
  lastLogin : Option Int
  preferences : Preferences
  loginAttempts : Nat
  isLocked : Bool
deriving DecidableEq

/-- Placeholder user for bound-guarded index lookups (never observed). -/
def defUser : UserModel :=
  ⟨"", "", "", UserRole.user, true, 0, none, ⟨"light", true, "en", "UTC"⟩, 0, false⟩

/-- Model of `User.validate` (`src/models/User.ts`): name required and
non-empty after trimming, name at most 100 characters, email non-empty
(truthy) and matching the e-mail regex. -/
def userValidate (u : UserModel) : ValidationResult :=
  let errors : List String :=
    (if u.name == "" || jsTrim u.name == "" then ["Name is required"] else []) ++
    (if u.name != "" && u.name.length > 100 then
       ["Name must be less than 100 characters"] else []) ++
    (if u.email == "" || !isValidEmail u.email then ["Valid email is required"] else [])
  ⟨errors.length == 0, errors⟩

/-- The `User.canManageUsers` method. -/
def canManageUsers (u : UserModel) : Bool :=
  u.role == UserRole.admin || u.role == UserRole.manager

/-- The `User.isAdmin` method. -/
def isAdminUser (u : UserModel) : Bool :=
  u.role == UserRole.admin

/-- Creation input for a user (`CreateUserInput`). -/
structure UserInput where
  name : String
  email : String
  role : Option UserRole := none
  preferences : Option PrefUpdates := none

/-- The `User` constructor: role defaults to `USER` (enum strings are truthy),
`isActive` starts `true`, preferences are the defaults overridden by the
provided bundle. -/
def newUser (input : UserInput) (id : String) (now : Int) : UserModel :=
  ⟨id, input.name, input.email, input.role.getD UserRole.user, true, now, none,
    mergePrefs ⟨"light", true, "en", "UTC"⟩ (input.preferences.getD ⟨none, none, none, none⟩),
    0, false⟩

/-- State of a `UserService` instance. -/
structure UserSvcState where
  users : List UserModel
  nextId : Nat
deriving DecidableEq

/-- The `UserService` constructor: `createDefaultAdmin` seeds the collection
with the system administrator. -/
def userSvcInit (now : Int) : UserSvcState :=
  ⟨[⟨"user_1", "System Administrator", "admin@taskmanager.com", UserRole.admin, true, now,
      none, ⟨"dark", true, "en", "UTC"⟩, 0, false⟩], 2⟩

/-- Model of `UserService.create`: permission check, duplicate-email check,
then construction (consuming an id, so `nextId` advances even when validation
then fails), validation, and push on success. -/
def userCreate (input : UserInput) (createdBy : Option UserModel) (now : Int)
    (s : UserSvcState) : ApiResp UserModel × UserSvcState :=
  if (match createdBy with | some b => !canManageUsers b | none => false) then
    (⟨false, none, some "Insufficient permissions to create users"⟩, s)
  else if s.users.any (fun u => u.email == input.email) then
    (⟨false, none, some "User with this email already exists"⟩, s)
  else
    let user := newUser input ("user_" ++ toString s.nextId) now
    let validation := userValidate user
    if validation.isValid then
      (⟨true, some user, none⟩, ⟨s.users ++ [user], s.nextId + 1⟩)
    else
      (⟨false, none, some ("Validation failed: " ++ String.intercalate ", " validation.errors)⟩,
        ⟨s.users, s.nextId + 1⟩)

/-- Update payload for `UserService.update` (`Partial<IUser>`; only the fields
the method reads are modelled). -/
structure UserUpdates where
  name : Option String := none
  email : Option String := none
  role : Option UserRole := none
  isActive : Option Bool := none
  preferences : Option PrefUpdates := none

/-- Model of `UserService.update`.  The user object is mutated field by field
in source order; the duplicate-email early return happens after the name has
already been assigned, and a validation failure does not roll the applied
updates back.  With no `updatedBy`, both permission checks are skipped; a
provided `role` (enum strings are truthy) additionally requires an admin
updater. -/
def userUpdate (id : String) (u : UserUpdates) (updatedBy : Option UserModel) (_now : Int)
    (s : UserSvcState) : ApiResp UserModel × UserSvcState :=
  match findIndex (fun x => x.id == id) s.users with
  | none => (⟨false, none, some ("User with ID " ++ id ++ " not found")⟩, s)
  | some i =>
    let user := s.users.getD i defUser
    if (match updatedBy with
        | some b => !(b.id == id || canManageUsers b)
        | none => false) then
      (⟨false, none, some "Insufficient permissions to update this user"⟩, s)
    else if (match updatedBy, u.role with
        | some b, some _ => !isAdminUser b
        | _, _ => false) then
      (⟨false, none, some "Only administrators can change user roles"⟩, s)
    else
      let u1 := { user with name := u.name.getD user.name }
      if (match u.email with
          | some e => s.users.any (fun x => x.email == e && x.id != id)
          | none => false) then
        (⟨false, none, some "Email is already taken by another user"⟩,
          ⟨s.users.set i u1, s.nextId⟩)
      else
        let u2 := { u1 with
          email := u.email.getD u1.email
          role := u.role.getD u1.role
          isActive := u.isActive.getD u1.isActive
          preferences := match u.preferences with
            | some p => mergePrefs u1.preferences p
            | none => u1.preferences }
        let validation := userValidate u2
        if validation.isValid then
          (⟨true, some u2, none⟩, ⟨s.users.set i u2, s.nextId⟩)
        else
          (⟨false, none,
              some ("Validation failed: " ++ String.intercalate ", " validation.errors)⟩,
            ⟨s.users.set i u2, s.nextId⟩)

/-- Model of `UserService.delete`: not-found check, permission check, and the
last-administrator guard (`adminCount <= 1` rejects), then `splice`. -/
def userDelete (id : String) (deletedBy : Option UserModel) (s : UserSvcState) :
    ApiResp Bool × UserSvcState :=
  match findIndex (fun x => x.id == id) s.users with
  | none => (⟨false, none, some ("User with ID " ++ id ++ " not found")⟩, s)
  | some i =>
    let target := s.users.getD i defUser
    if (match deletedBy with | some b => !canManageUsers b | none => false) then
      (⟨false, none, some "Insufficient permissions to delete users"⟩, s)
    else if target.role == UserRole.admin &&
        (s.users.filter (fun x => x.role == UserRole.admin)).length ≤ 1 then
      (⟨false, none, some "Cannot delete the last administrator"⟩, s)
    else
      (⟨true, some true, none⟩, ⟨s.users.eraseIdx i, s.nextId⟩)

/-- Model of `UserService.authenticate`: lookup by email, the active and
locked checks, then `recordLogin` (which resets attempts and the lock). -/
def userAuthenticate (email : String) (_password : String) (now : Int) (s : UserSvcState) :
    ApiResp UserModel × UserSvcState :=
  match findIndex (fun x => x.email == email) s.users with
  | none => (⟨false, none, some "Invalid credentials"⟩, s)
  | some i =>
    let user := s.users.getD i defUser
    if !user.isActive then
      (⟨false, none, some "Account is deactivated"⟩, s)
    else if user.isLocked then
      (⟨false, none, some "Account is locked due to too many failed login attempts"⟩, s)
    else
      let u' := { user with lastLogin := some now, loginAttempts := 0, isLocked := false }
      (⟨true, some u', none⟩, ⟨s.users.set i u', s.nextId⟩)

/-- Model of `UserService.clear`: keep the first admin, if any. -/
def userClear (s : UserSvcState) : UserSvcState :=
  match s.users.find? (fun x => x.role == UserRole.admin) with
  | some admin => ⟨[admin], 2⟩
  | none => ⟨[], 1⟩

/-- At least one `ADMIN` exists in the collection. -/
def hasAdmin (s : UserSvcState) : Bool :=
  s.users.any (fun u => u.role == UserRole.admin)

/-- The concrete record of the spec's validation example:
`{title: "", description: "A"*1001, priority: "invalid"}`. -/
def exampleBadTask : TaskRec :=
  ⟨some "", some (String.mk (List.replicate 1001 'A')), some "invalid", none, none, none⟩

/-- C9: the task validator applied to a record with empty title, a
1001-character description and an out-of-enumeration priority returns invalid
with exactly three errors, in the fixed rule order: the title-required
violation, then the description-too-long violation, then the invalid-priority
violation. -/
theorem validateTaskData_example_three_errors :
    validateTaskData exampleBadTask =
      ⟨false, ["Title cannot be empty",
               "Description must be no more than 1000 characters long",
               "Invalid priority value"]⟩ ∧
    (validateTaskData exampleBadTask).errors.length = 3 := by
  set_option maxRecDepth 100000 in constructor <;> rfl

/-- C2: for every task entity, `Task.validate` succeeds exactly when the title
is non-empty after trimming and at most 200 characters, the description (when
present) is at most 1000 characters, the priority and status lie in their
four-value enumerations (automatic for the entity's typed fields), and the due
timestamp (when present) is at least the creation timestamp. -/
theorem taskValidate_isValid_iff (t : TaskModel) :
    (taskValidate t).isValid = true ↔
      (jsTrim t.title ≠ "" ∧ t.title.length ≤ 200 ∧
       (∀ d, t.description = some d → d.length ≤ 1000) ∧
       t.priority ∈ [Priority.low, Priority.medium, Priority.high, Priority.urgent] ∧
       t.status ∈ [TaskStatus.todo, TaskStatus.inProgress, TaskStatus.done,
         TaskStatus.cancelled] ∧
       (∀ due, t.dueDate = some due → t.createdAt ≤ due)) := by
  obtain ⟨id, title, desc, prio, st, asg, cAt, uAt, due, tags, comp⟩ := t
  have hp : prio ∈ [Priority.low, Priority.medium, Priority.high, Priority.urgent] := by
    cases prio <;> simp
  have hs : st ∈ [TaskStatus.todo, TaskStatus.inProgress, TaskStatus.done,
      TaskStatus.cancelled] := by
    cases st <;> simp
  have hdesc : ∀ s : String, ((s != "") && decide (s.length > 1000)) =
      decide (s.length > 1000) := by
    intro s
    by_cases h : s = ""
    · subst h; decide
    · simp [bne_iff_ne, h]
  by_cases hT : jsTrim title = ""
  · simp [taskValidate, hT]
  · have hne : title ≠ "" := by
      intro h
      exact hT (by rw [h]; rfl)
    cases desc <;> cases due <;>
      simp only [taskValidate, hdesc, hp, hs, true_and, and_true, hT, hne] <;>
      split_ifs <;>
      simp_all

/-- Helper: a run of characters satisfying `p`, followed by a character that
does not, determines `takeWhile` and `dropWhile`. -/
theorem takeWhile_append_cons {α : Type} (p : α → Bool) (l r : List α) (x : α)
    (hl : ∀ c ∈ l, p c = true) (hx : p x = false) :
    (l ++ x :: r).takeWhile p = l ∧ (l ++ x :: r).dropWhile p = x :: r := by
  induction l with
  | nil => simp [List.takeWhile_cons, List.dropWhile_cons, hx]
  | cons a as ih =>
    have ha : p a = true := hl a (by simp)
    have ih' := ih (fun c hc => hl c (by simp [hc]))
    simp [List.takeWhile_cons, List.dropWhile_cons, ha, ih'.1, ih'.2]

/-- Declarative reading of the e-mail regex: a nonempty run of characters that
are neither whitespace nor `'@'`, then `'@'`, then another such run, a `'.'`,
and a final such run (the runs after `'@'` may themselves contain `'.'`). -/
def emailShape (e : String) : Prop :=
  ∃ l m t : List Char, l ≠ [] ∧ m ≠ [] ∧ t ≠ [] ∧
    (∀ c ∈ l, okEmailChar c = true) ∧ (∀ c ∈ m, okEmailChar c = true) ∧
    (∀ c ∈ t, okEmailChar c = true) ∧ e.data = l ++ '@' :: (m ++ '.' :: t)

/-- The executable regex model accepts exactly the strings of `emailShape`. -/
theorem isValidEmail_iff_emailShape (e : String) :
    isValidEmail e = true ↔ emailShape e := by
  constructor
  · intro h
    simp only [isValidEmail] at h
    rcases hd : e.data.dropWhile okEmailChar with _ | ⟨c0, d⟩
    · rw [hd] at h; simp at h
    · rw [hd] at h
      simp only [Bool.and_eq_true, beq_iff_eq, Bool.not_eq_true'] at h
      obtain ⟨⟨hne, hat⟩, htail⟩ := h
      subst hat
      simp only [emailTailOk, Bool.and_eq_true, List.all_eq_true] at htail
      obtain ⟨hall, hdot⟩ := htail
      have hdotmem : '.' ∈ (d.drop 1).dropLast := by
        simpa [List.contains_iff_exists_mem_beq, beq_iff_eq, eq_comm] using hdot
      rcases hdd : d with _ | ⟨d0, d1⟩
      · rw [hdd] at hdotmem; simp at hdotmem
      · rw [hdd] at hdotmem
        simp only [List.drop_succ_cons, List.drop_zero] at hdotmem
        rcases List.eq_nil_or_concat d1 with h1 | ⟨init, lastc, hinit⟩
        · rw [h1] at hdotmem; simp at hdotmem
        · rw [List.concat_eq_append] at hinit
          rw [hinit, List.dropLast_concat] at hdotmem
          obtain ⟨u, v, huv⟩ := List.append_of_mem hdotmem
          have hdeq : d = (d0 :: u) ++ '.' :: (v ++ [lastc]) := by
            rw [hdd, hinit, huv]
            simp
          refine ⟨e.data.takeWhile okEmailChar, d0 :: u, v ++ [lastc], ?_, by simp, by simp,
            fun c hc => List.mem_takeWhile_imp hc, ?_, ?_, ?_⟩
          · intro hnil
            rw [hnil] at hne
            simp at hne
          · intro c hc
            apply hall
            rw [hdeq]
            rcases List.mem_cons.mp hc with hc | hc
            · simp [hc]
            · simp [hc]
          · intro c hc
            apply hall
            rw [hdeq]
            simp [hc]
          · conv_lhs => rw [← List.takeWhile_append_dropWhile okEmailChar e.data]
            rw [hd, hdeq]
  · rintro ⟨l, m, t, hl, hm, ht, hlo, hmo, hto, hdecomp⟩
    have hAt : okEmailChar '@' = false := by decide
    obtain ⟨htw, hdw⟩ := takeWhile_append_cons okEmailChar l (m ++ '.' :: t) '@' hlo hAt
    simp only [isValidEmail]
    rw [hdecomp, hdw, htw]
    have hisEmpty : l.isEmpty = false := by
      rcases l with _ | ⟨a, as⟩
      · exact absurd rfl hl
      · rfl
    simp only [hisEmpty, Bool.not_false, beq_self_eq_true, Bool.and_true, Bool.true_and]
    simp only [emailTailOk, Bool.and_eq_true, List.all_eq_true]
    refine ⟨?_, ?_⟩
    · intro c hc
      rcases List.mem_append.mp hc with hc | hc
      · exact hmo c hc
      · rcases List.mem_cons.mp hc with hc | hc
        · rw [hc]; decide
        · exact hto c hc
    · rcases m with _ | ⟨m0, m'⟩
      · exact absurd rfl hm
      · rcases List.eq_nil_or_concat t with h1 | ⟨tinit, tl, htinit⟩
        · exact absurd h1 ht
        · rw [List.concat_eq_append] at htinit
          have hassoc : (m0 :: m') ++ '.' :: (tinit ++ [tl]) =
              m0 :: ((m' ++ '.' :: tinit) ++ [tl]) := by
            simp
          rw [htinit, hassoc]
          simp only [List.drop_succ_cons, List.drop_zero, List.dropLast_concat]
          simp [List.contains_iff_exists_mem_beq]

/-- A string has length zero exactly when it is empty. -/
theorem string_length_zero_iff (s : String) : s.length = 0 ↔ s = "" := by
  cases s
  simp [String.length, String.ext_iff]

/-- Helper: `dropWhile` is the identity when no element satisfies `p`. -/
theorem dropWhile_of_all_neg {α : Type} (p : α → Bool) (l : List α)
    (h : ∀ c ∈ l, p c = false) : l.dropWhile p = l := by
  cases l with
  | nil => rfl
  | cons a as => simp [List.dropWhile_cons, h a (by simp)]

/-- Trimming a string without whitespace characters is the identity. -/
theorem jsTrim_of_no_space (s : String) (h : ∀ c ∈ s.data, isJsSpace c = false) :
    jsTrim s = s := by
  unfold jsTrim
  rw [dropWhile_of_all_neg _ _ h,
    dropWhile_of_all_neg _ _ (fun c hc => h c (List.mem_reverse.mp hc)),
    List.reverse_reverse]

/-- A string of e-mail shape contains no whitespace. -/
theorem emailShape_no_space (e : String) (h : emailShape e) :
    ∀ c ∈ e.data, isJsSpace c = false := by
  obtain ⟨l, m, t, _, _, _, hlo, hmo, hto, hdecomp⟩ := h
  have hok : ∀ c : Char, okEmailChar c = true → isJsSpace c = false := by
    intro c hc
    simp only [okEmailChar, Bool.and_eq_true, Bool.not_eq_true'] at hc
    exact hc.1
  intro c hc
  rw [hdecomp] at hc
  rcases List.mem_append.mp hc with hc | hc
  · exact hok c (hlo c hc)
  · rcases List.mem_cons.mp hc with hc | hc
    · rw [hc]; rfl
    · rcases List.mem_append.mp hc with hc | hc
      · exact hok c (hmo c hc)
      · rcases List.mem_cons.mp hc with hc | hc
        · rw [hc]; rfl
        · exact hok c (hto c hc)

/-- A string of e-mail shape is nonempty. -/
theorem emailShape_ne_empty (e : String) (h : emailShape e) : e ≠ "" := by
  obtain ⟨l, m, t, hl, _, _, _, _, _, hdecomp⟩ := h
  intro he
  rw [he] at hdecomp
  rcases l with _ | ⟨a, as⟩
  · exact hl rfl
  · simp at hdecomp

/-- C5 (amended): for a user record with name and email present, the user
validator succeeds exactly when the name is non-empty after trimming and at
most 100 characters, the email matches the shape whose three segments consist
of characters that are neither whitespace nor `'@'` (so a second `'@'` is
rejected), and the role, when present, lies in the four-value enumeration. -/
theorem validateUserData_isValid_iff (n e : String) (r : Option String) :
    (validateUserData ⟨some n, some e, r⟩).isValid = true ↔
      (jsTrim n ≠ "" ∧ n.length ≤ 100 ∧ emailShape e ∧
       (∀ rv, r = some rv → rv ∈ (["admin", "manager", "user", "guest"] : List String))) := by
  rw [← isValidEmail_iff_emailShape]
  have hrv : ∀ rv : String, rv ∈ (["admin", "manager", "user", "guest"] : List String) ↔
      isUserRoleStr rv = true := by
    intro rv
    simp [isUserRoleStr, or_assoc]
  by_cases hN : jsTrim n = ""
  · simp [validateUserData, validateRequired, hN]
  · have hn0 : n ≠ "" := fun h => hN (by rw [h]; rfl)
    have hn1 : ¬(n.length < 1) := by
      have := (string_length_zero_iff n).not.mpr hn0
      omega
    have hnl : ¬((jsTrim n).length = 0) := (string_length_zero_iff (jsTrim n)).not.mpr hN
    by_cases hE : isValidEmail e = true
    · have htr : jsTrim e = e :=
        jsTrim_of_no_space e (emailShape_no_space e ((isValidEmail_iff_emailShape e).mp hE))
      have he0 : e ≠ "" := emailShape_ne_empty e ((isValidEmail_iff_emailShape e).mp hE)
      have hel : ¬((jsTrim e).length = 0) := by
        rw [htr]
        exact (string_length_zero_iff e).not.mpr he0
      by_cases h100 : 100 < n.length
      · rcases r with _ | rv
        · simp [validateUserData, validateRequired, validateStringLength, errOpt,
            hN, hn1, hnl, hE, hel, h100, hrv]
        · simp [validateUserData, validateRequired, validateStringLength, errOpt,
            hN, hn1, hnl, hE, hel, h100, hrv]
      · rcases r with _ | rv
        · simp [validateUserData, validateRequired, validateStringLength, errOpt,
            hN, hn1, hnl, hE, hel, h100, hrv]
          omega
        · by_cases hr : isUserRoleStr rv = true
          · simp [validateUserData, validateRequired, validateStringLength, errOpt,
              hN, hn1, hnl, hE, hel, h100, hr, hrv]
            omega
          · simp [validateUserData, validateRequired, validateStringLength, errOpt,
              hN, hn1, hnl, hE, hel, h100, hr, hrv]
    · by_cases hel : (jsTrim e).length = 0 <;>
        simp [validateUserData, validateRequired, validateStringLength, errOpt,
          hN, hn1, hnl, hE, hel]

/-- The claim's literal e-mail shape: three nonempty segments of
non-whitespace characters around `'@'` and `'.'` (the segments may contain a
further `'@'`). -/
def specC5EmailShape (e : String) : Prop :=
  ∃ l m t : List Char, l ≠ [] ∧ m ≠ [] ∧ t ≠ [] ∧
    (∀ c ∈ l, isJsSpace c = false) ∧ (∀ c ∈ m, isJsSpace c = false) ∧
    (∀ c ∈ t, isJsSpace c = false) ∧ e.data = l ++ '@' :: (m ++ '.' :: t)

/-- C5 (counterexample): the user record with name `"A"` and email
`"a@b@c.d"` satisfies every condition of the claim (the email splits into the
non-whitespace segments `"a"`, `"b@c"`, `"d"`), yet the validator rejects it,
because the regex character class also excludes `'@'`. -/
theorem validateUserData_shape_counterexample :
    (jsTrim "A" ≠ "" ∧ ("A" : String).length ≤ 100 ∧ specC5EmailShape "a@b@c.d" ∧
     (∀ rv : String, (none : Option String) = some rv →
        rv ∈ (["admin", "manager", "user", "guest"] : List String))) ∧
    (validateUserData ⟨some "A", some "a@b@c.d", none⟩).isValid = false := by
  refine ⟨⟨by decide, by decide, ?_, by simp⟩, by decide⟩
  exact ⟨['a'], ['b', '@', 'c'], ['d'], by simp, by simp, by simp,
    by decide, by decide, by decide, by decide⟩

/-- The filter-matching predicate as the claim words it, with the two JS
truthiness caveats: the assignee check applies only to a non-empty assignee
string, and the tags check only to a non-empty requested set.  All provided
fields combine conjunctively. -/
def specC6MatchesAmended (f : TaskFilters) (t : TaskModel) : Prop :=
  (∀ s, f.status = some s → t.status ∈ toValueList s) ∧
  (∀ p, f.priority = some p → t.priority ∈ toValueList p) ∧
  (∀ a, f.assignedTo = some a → a ≠ "" → t.assignedTo = some a) ∧
  (∀ b, f.completed = some b → t.completed = b) ∧
  (∀ lo hi : Int, f.dateRange = some (lo, hi) → lo ≤ t.createdAt ∧ t.createdAt ≤ hi) ∧
  (∀ ts, f.tags = some ts → ts ≠ [] → ∃ tag ∈ t.tags, tag ∈ ts)

/-- The filter-matching predicate exactly as the claim states it (no
truthiness caveats). -/
def specC6Matches (f : TaskFilters) (t : TaskModel) : Prop :=
  (∀ s, f.status = some s → t.status ∈ toValueList s) ∧
  (∀ p, f.priority = some p → t.priority ∈ toValueList p) ∧
  (∀ a, f.assignedTo = some a → t.assignedTo = some a) ∧
  (∀ b, f.completed = some b → t.completed = b) ∧
  (∀ lo hi : Int, f.dateRange = some (lo, hi) → lo ≤ t.createdAt ∧ t.createdAt ≤ hi) ∧
  (∀ ts, f.tags = some ts → ∃ tag ∈ t.tags, tag ∈ ts)

theorem matchesFilters_iff (f : TaskFilters) (t : TaskModel) :
    matchesFilters f t = true ↔ specC6MatchesAmended f t := by
  obtain ⟨fs, fp, fa, fc, fd, ft⟩ := f
  simp only [matchesFilters, specC6MatchesAmended, Bool.and_eq_true, and_assoc]
  refine and_congr ?_ (and_congr ?_ (and_congr ?_ (and_congr ?_ (and_congr ?_ ?_))))
  · rcases fs with _ | s <;> simp
  · rcases fp with _ | p <;> simp
  · rcases fa with _ | a
    · simp
    · by_cases ha : a = "" <;> simp [ha]
  · rcases fc with _ | b <;> simp
  · rcases fd with _ | ⟨lo, hi⟩ <;> simp
  · rcases ft with _ | ts
    · simp
    · by_cases hts : ts = []
      · simp [hts]
      · have hie : ts.isEmpty = false := by
          rcases ts with _ | _
          · exact absurd rfl hts
          · rfl
        simp only [hie, Bool.false_eq_true, if_false, List.any_eq_true, Option.some.injEq,
          forall_eq', hts, ne_eq, not_false_eq_true, forall_const]
        constructor
        · rintro ⟨tag, h1, h2⟩
          exact ⟨tag, by simpa using h2, h1⟩
        · rintro ⟨tag, h1, h2⟩
          exact ⟨tag, h2, by simpa using h1⟩

/-- C6 (amended): a task is in the filter result exactly when it is in the
collection and satisfies every provided filter field, where the assignee
filter applies only to a non-empty assignee string and the tags filter only
to a non-empty requested tag set; fields combine conjunctively. -/
theorem applyFilters_mem_iff (tasks : List TaskModel) (f : TaskFilters) (t : TaskModel) :
    t ∈ applyFilters tasks f ↔ t ∈ tasks ∧ specC6MatchesAmended f t := by
  unfold applyFilters
  rw [List.mem_filter, matchesFilters_iff]

/-- Tagless task used in the tags-filter counterexample. -/
def exampleTagTask : TaskModel :=
  ⟨"task_1", "Demo", none, Priority.medium, TaskStatus.todo, none, 0, 0, none, [], false⟩

/-- Filter that provides an empty tag set and nothing else. -/
def exampleEmptyTagFilter : TaskFilters :=
  ⟨none, none, none, none, none, some []⟩

/-- C6 (counterexample): with a provided-but-empty tag set, the code skips the
tags filter and keeps a tagless task, while the claim ("at least one of its
tags in the requested tag set") excludes it — the claimed equivalence fails. -/
theorem applyFilters_empty_tags_counterexample :
    exampleTagTask ∈ applyFilters [exampleTagTask] exampleEmptyTagFilter ∧
    ¬ specC6Matches exampleEmptyTagFilter exampleTagTask := by
  constructor
  · decide
  · intro h
    obtain ⟨-, -, -, -, -, htags⟩ := h
    obtain ⟨tag, hmem, -⟩ := htags [] rfl
    simp [exampleTagTask] at hmem

/-- Order on optional keys realised by the comparator: in ascending order
absent keys sort last, in descending order absent keys sort first. -/
def leKey {K : Type} [LinearOrder K] (ord : SortOrder) (oa ob : Option K) : Prop :=
  match ord with
  | SortOrder.asc =>
    match oa, ob with
    | _, none => True
    | none, some _ => False
    | some x, some y => x ≤ y
  | SortOrder.desc =>
    match oa, ob with
    | none, _ => True
    | some _, none => False
    | some x, some y => y ≤ x

theorem compareTasks_le_iff {K : Type} [LinearOrder K] (k : TaskModel → Option K)
    (ord : SortOrder) (a b : TaskModel) :
    compareTasks k ord a b ≤ 0 ↔ leKey ord (k a) (k b) := by
  rcases hka : k a with _ | x <;> rcases hkb : k b with _ | y <;> cases ord <;>
    simp only [compareTasks, leKey, hka, hkb] <;>
    try simp
  all_goals
    split_ifs with h1 h2 <;> simp <;>
      first
        | exact h1
        | exact h2
        | exact le_of_lt h1
        | exact le_of_lt h2
        | exact le_of_not_lt h1
        | exact le_of_not_lt h2

theorem leKey_total {K : Type} [LinearOrder K] (ord : SortOrder) (oa ob : Option K) :
    leKey ord oa ob ∨ leKey ord ob oa := by
  rcases oa with _ | x <;> rcases ob with _ | y <;> cases ord <;> simp [leKey] <;>
    first
      | exact le_total x y
      | exact le_total y x

theorem leKey_trans {K : Type} [LinearOrder K] (ord : SortOrder) (oa ob oc : Option K)
    (h1 : leKey ord oa ob) (h2 : leKey ord ob oc) : leKey ord oa oc := by
  rcases oa with _ | x <;> rcases ob with _ | y <;> rcases oc with _ | z <;> cases ord <;>
    simp_all [leKey]
  · exact le_trans h1 h2
  · exact le_trans h2 h1

theorem sortLE_of_keyEq {K : Type} [LinearOrder K] (k : TaskModel → Option K)
    (ord : SortOrder) (a b : TaskModel) (h : k a = k b) : sortLE k ord a b := by
  rw [sortLE, compareTasks_le_iff, h]
  rcases k b with _ | y <;> cases ord <;> simp [leKey]

theorem filter_orderedInsert_pos {α : Type} (r : α → α → Prop) [DecidableRel r]
    (p : α → Bool) (x : α) (hx : p x = true) (h : ∀ y, p y = true → r x y) :
    ∀ L : List α, (L.orderedInsert r x).filter p = x :: L.filter p := by
  intro L
  induction L with
  | nil => simp [List.orderedInsert, hx]
  | cons b bs ih =>
    by_cases hr : r x b
    · simp [List.orderedInsert, hr, hx]
    · have hb : p b = false := by
        rcases hpb : p b with _ | _
        · rfl
        · exact absurd (h b hpb) hr
      simp [List.orderedInsert, hr, List.filter_cons, hb, ih]

theorem filter_orderedInsert_neg {α : Type} (r : α → α → Prop) [DecidableRel r]
    (p : α → Bool) (x : α) (hx : p x = false) :
    ∀ L : List α, (L.orderedInsert r x).filter p = L.filter p := by
  intro L
  induction L with
  | nil => simp [List.orderedInsert, hx]
  | cons b bs ih =>
    by_cases hr : r x b
    · simp [List.orderedInsert, hr, List.filter_cons, hx]
    · simp [List.orderedInsert, hr, List.filter_cons, ih]

theorem filter_insertionSort {α : Type} (r : α → α → Prop) [DecidableRel r]
    (p : α → Bool) (h : ∀ a b, p a = true → p b = true → r a b) (l : List α) :
    (l.insertionSort r).filter p = l.filter p := by
  induction l with
  | nil => rfl
  | cons a as ih =>
    rcases hpa : p a with _ | _
    · rw [List.insertionSort, filter_orderedInsert_neg r p a hpa, ih, List.filter_cons, hpa]
      simp
    · rw [List.insertionSort, filter_orderedInsert_pos r p a hpa (fun y hy => h a y hpa hy),
        ih, List.filter_cons, hpa]
      simp

/-- The sort output is ordered by the comparator relation. -/
theorem applySorting_sorted {K : Type} [LinearOrder K] (k : TaskModel → Option K)
    (ord : SortOrder) (l : List TaskModel) :
    (applySorting k ord l).Sorted (sortLE k ord) := by
  haveI : IsTotal TaskModel (sortLE k ord) := by
    refine ⟨fun a b => ?_⟩
    rw [sortLE, sortLE, compareTasks_le_iff, compareTasks_le_iff]
    exact leKey_total ord (k a) (k b)
  haveI : IsTrans TaskModel (sortLE k ord) := by
    refine ⟨fun a b c hab hbc => ?_⟩
    rw [sortLE, compareTasks_le_iff] at hab hbc ⊢
    exact leKey_trans ord (k a) (k b) (k c) hab hbc
  exact List.sorted_insertionSort (sortLE k ord) l

/-- C4 (amended): sorting is a stable permutation (records with equal sort
keys keep their relative order) and sorting twice with the same key yields the
same order; records whose sort field is absent are placed after all records
with the field in ascending order, but before them in descending order. -/
theorem applySorting_props :
    (∀ (K : Type) [LinearOrder K] (k : TaskModel → Option K) (ord : SortOrder)
      (l : List TaskModel), (applySorting k ord l).Perm l) ∧
    (∀ (K : Type) [LinearOrder K] (k : TaskModel → Option K) (ord : SortOrder)
      (l : List TaskModel) (v : Option K),
      (applySorting k ord l).filter (fun t => decide (k t = v)) =
        l.filter (fun t => decide (k t = v))) ∧
    (∀ (K : Type) [LinearOrder K] (k : TaskModel → Option K) (ord : SortOrder)
      (l : List TaskModel), applySorting k ord (applySorting k ord l) = applySorting k ord l) ∧
    (∀ (K : Type) [LinearOrder K] (k : TaskModel → Option K) (l : List TaskModel),
      (applySorting k SortOrder.asc l).Pairwise (fun a b => k a = none → k b = none)) ∧
    (∀ (K : Type) [LinearOrder K] (k : TaskModel → Option K) (l : List TaskModel),
      (applySorting k SortOrder.desc l).Pairwise (fun a b => k b = none → k a = none)) := by
  refine ⟨?_, ?_, ?_, ?_, ?_⟩
  · intro K _ k ord l
    exact List.perm_insertionSort (sortLE k ord) l
  · intro K _ k ord l v
    apply filter_insertionSort
    intro a b ha hb
    have ha' : k a = v := of_decide_eq_true ha
    have hb' : k b = v := of_decide_eq_true hb
    exact sortLE_of_keyEq k ord a b (ha'.trans hb'.symm)
  · intro K _ k ord l
    haveI : IsTotal TaskModel (sortLE k ord) := by
      refine ⟨fun a b => ?_⟩
      rw [sortLE, sortLE, compareTasks_le_iff, compareTasks_le_iff]
      exact leKey_total ord (k a) (k b)
    haveI : IsTrans TaskModel (sortLE k ord) := by
      refine ⟨fun a b c hab hbc => ?_⟩
      rw [sortLE, compareTasks_le_iff] at hab hbc ⊢
      exact leKey_trans ord (k a) (k b) (k c) hab hbc
    exact List.Sorted.insertionSort_eq (applySorting_sorted k ord l)
  · intro K _ k l
    refine (applySorting_sorted k SortOrder.asc l).imp ?_
    intro a b hab hka
    rw [sortLE, compareTasks_le_iff, hka] at hab
    rcases hkb : k b with _ | y
    · rfl
    · rw [hkb] at hab
      exact absurd hab (by simp [leKey])
  · intro K _ k l
    refine (applySorting_sorted k SortOrder.desc l).imp ?_
    intro a b hab hkb
    rw [sortLE, compareTasks_le_iff, hkb] at hab
    rcases hka : k a with _ | x
    · rfl
    · rw [hka] at hab
      exact absurd hab (by simp [leKey])

/-- Key function for `sortBy: "dueDate"`. -/
def dueKey (t : TaskModel) : Option Int := t.dueDate

def exampleDueTaskA : TaskModel :=
  ⟨"a", "a", none, Priority.medium, TaskStatus.todo, none, 0, 0, none, [], false⟩

def exampleDueTaskB : TaskModel :=
  ⟨"b", "b", none, Priority.medium, TaskStatus.todo, none, 0, 0, some 5, [], false⟩

/-- C4 (counterexample): sorting two concrete tasks by due date in descending
order puts the task without a due date first, not last, so the claim that
absent fields sort last in both directions fails. -/
theorem applySorting_desc_missing_first :
    applySorting dueKey SortOrder.desc [exampleDueTaskB, exampleDueTaskA] =
      [exampleDueTaskA, exampleDueTaskB] ∧
    dueKey exampleDueTaskA = none ∧ dueKey exampleDueTaskB = some 5 ∧
    ¬ ((applySorting dueKey SortOrder.desc [exampleDueTaskB, exampleDueTaskA]).Pairwise
        (fun a b => dueKey a = none → dueKey b = none)) := by
  refine ⟨by decide, rfl, rfl, ?_⟩
  intro h
  rw [show applySorting dueKey SortOrder.desc [exampleDueTaskB, exampleDueTaskA] =
    [exampleDueTaskA, exampleDueTaskB] by decide] at h
  have := (List.pairwise_cons.mp h).1 exampleDueTaskB (by simp)
  exact absurd (this rfl) (by decide)

/-- The slice `[s, s+n)` is drop-then-take. -/
theorem jsSlice_eq_drop_take {α : Type} (l : List α) (s n : Nat) :
    jsSlice l s (s + n) = (l.drop s).take n := by
  rw [jsSlice, List.drop_take]
  congr 1
  omega

/-- Characterisation of the ceiling: `ceil(t/L)` is the least page count whose
pages of size `L` cover `t` elements. -/
theorem ceilNat_le_iff (t L j : Nat) (hL : 1 ≤ L) : ceilNat t L ≤ j ↔ t ≤ j * L := by
  unfold ceilNat
  rw [← Nat.lt_succ_iff, Nat.div_lt_iff_lt_mul (by omega : 0 < L), Nat.succ_mul]
  omega

theorem ceilNat_zero (L : Nat) (hL : 1 ≤ L) : ceilNat 0 L = 0 := by
  unfold ceilNat
  rw [Nat.zero_add]
  exact Nat.div_eq_of_lt (by omega)

theorem ceilNat_succ (t L : Nat) (hL : 1 ≤ L) (ht : 1 ≤ t) :
    ceilNat t L = ceilNat (t - L) L + 1 := by
  unfold ceilNat
  by_cases h : t ≤ L
  · have h1 : t + L - 1 = (t - 1) + L := by omega
    have h2 : t - L = 0 := by omega
    rw [h1, Nat.add_div_right _ (by omega : 0 < L), h2]
    have h3 : (t - 1) / L = Nat.zero := Nat.div_eq_of_lt (by omega)
    have h4 : (0 + L - 1) / L = Nat.zero := Nat.div_eq_of_lt (by omega)
    rw [h3, h4]
  · have h1 : t + L - 1 = ((t - L) + L - 1) + L := by omega
    rw [h1, Nat.add_div_right _ (by omega : 0 < L)]

/-- Concatenating the size-`L` chunks of a list reproduces the list. -/
theorem chunks_join {α : Type} (L : Nat) (hL : 1 ≤ L) :
    ∀ (fuel : Nat) (l : List α), l.length ≤ fuel →
      ((List.range (ceilNat l.length L)).map (fun p => (l.drop (p * L)).take L)).flatten = l := by
  intro fuel
  induction fuel with
  | zero =>
    intro l hl
    have h0 : l = [] := List.eq_nil_of_length_eq_zero (by omega)
    subst h0
    simp [ceilNat_zero L hL]
  | succ n ih =>
    intro l hl
    rcases hcons : l with _ | ⟨a, as⟩
    · simp [ceilNat_zero L hL]
    · have hlen : 1 ≤ l.length := by rw [hcons]; simp
      rw [← hcons]
      rw [ceilNat_succ l.length L hL hlen, List.range_succ_eq_map, List.map_cons, List.map_map]
      have hzero : (l.drop (0 * L)).take L = l.take L := by simp
      have hfun : ((fun p => (l.drop (p * L)).take L) ∘ Nat.succ) =
          (fun p => ((l.drop L).drop (p * L)).take L) := by
        funext p
        simp only [Function.comp_apply, List.drop_drop]
        congr 2
        rw [Nat.succ_mul]
        omega
      rw [hzero, hfun]
      have hlend : (l.drop L).length = l.length - L := by simp
      have hrec := ih (l.drop L) (by rw [hlend]; omega)
      rw [hlend] at hrec
      rw [List.flatten_cons]
      rw [hrec]
      exact List.take_append_drop L l

/-- C7: for positive page and limit, `getAll` succeeds, reports `total` as the
size of the filtered-and-sorted set, returns exactly the slice
`[(page-1)*limit, (page-1)*limit + limit)` of that set, and reports
`totalPages` as the least number of pages of size `limit` covering `total`
(that is, `ceil(total/limit)`); an out-of-range page yields an empty page in a
successful response. -/
theorem getAll_pagination_correct (tasks : List TaskModel) (filters : Option TaskFilters)
    {K : Type} [LinearOrder K] (pg : PaginationOptions K)
    (_hpage : 1 ≤ pg.page) (hlimit : 1 ≤ pg.limit) :
    (getAll tasks filters (some pg)).success = true ∧
    (getAllData tasks filters (some pg)).total =
      (pipeline tasks filters (some pg)).length ∧
    (getAllData tasks filters (some pg)).tasks =
      ((pipeline tasks filters (some pg)).drop ((pg.page - 1) * pg.limit)).take pg.limit ∧
    (getAllData tasks filters (some pg)).totalPages =
      some (ceilNat (pipeline tasks filters (some pg)).length pg.limit) ∧
    ((pipeline tasks filters (some pg)).length ≤
        ceilNat (pipeline tasks filters (some pg)).length pg.limit * pg.limit ∧
      ∀ j, (pipeline tasks filters (some pg)).length ≤ j * pg.limit →
        ceilNat (pipeline tasks filters (some pg)).length pg.limit ≤ j) ∧
    ((pipeline tasks filters (some pg)).length ≤ (pg.page - 1) * pg.limit →
      (getAllData tasks filters (some pg)).tasks = []) := by
  refine ⟨rfl, rfl, ?_, rfl, ⟨?_, ?_⟩, ?_⟩
  · show jsSlice _ _ _ = _
    exact jsSlice_eq_drop_take _ _ _
  · exact (ceilNat_le_iff _ _ _ hlimit).mp le_rfl
  · intro j hj
    exact (ceilNat_le_iff _ _ _ hlimit).mpr hj
  · intro hout
    show jsSlice _ _ _ = _
    rw [jsSlice_eq_drop_take, List.drop_eq_nil_of_le hout, List.take_nil]

/-- C8: for a fixed positive limit, concatenating the pages `1..totalPages`
returned by `getAll` reproduces the full filtered and sorted set exactly, with
no element missing and none duplicated. -/
theorem getAll_pages_cover (tasks : List TaskModel) (filters : Option TaskFilters)
    {K : Type} [LinearOrder K] (sb : Option (TaskModel → Option K)) (so : Option SortOrder)
    (L : Nat) (hL : 1 ≤ L) :
    (getAllData tasks filters (some (⟨1, L, sb, so⟩ : PaginationOptions K))).totalPages =
      some (ceilNat
        (pipeline tasks filters (some (⟨1, L, sb, so⟩ : PaginationOptions K))).length L) ∧
    ((List.range (ceilNat
          (pipeline tasks filters (some (⟨1, L, sb, so⟩ : PaginationOptions K))).length L)).map
        (fun p => (getAllData tasks filters
          (some (⟨p + 1, L, sb, so⟩ : PaginationOptions K))).tasks)).flatten =
      pipeline tasks filters (some (⟨1, L, sb, so⟩ : PaginationOptions K)) := by
  constructor
  · rfl
  · have hpipe : ∀ p : Nat,
        pipeline tasks filters (some (⟨p, L, sb, so⟩ : PaginationOptions K)) =
          pipeline tasks filters (some (⟨1, L, sb, so⟩ : PaginationOptions K)) := by
      intro p
      rfl
    have htasks : ∀ p : Nat,
        (getAllData tasks filters (some (⟨p + 1, L, sb, so⟩ : PaginationOptions K))).tasks =
          ((pipeline tasks filters
            (some (⟨1, L, sb, so⟩ : PaginationOptions K))).drop (p * L)).take L := by
      intro p
      show jsSlice _ _ _ = _
      rw [hpipe (p + 1)]
      have hidx : (p + 1 - 1) * L = p * L := by
        congr 1
      rw [hidx, jsSlice_eq_drop_take]
    have hmap : (List.range (ceilNat
          (pipeline tasks filters (some (⟨1, L, sb, so⟩ : PaginationOptions K))).length L)).map
        (fun p => (getAllData tasks filters
          (some (⟨p + 1, L, sb, so⟩ : PaginationOptions K))).tasks) =
        (List.range (ceilNat
          (pipeline tasks filters (some (⟨1, L, sb, so⟩ : PaginationOptions K))).length L)).map
        (fun p => ((pipeline tasks filters
          (some (⟨1, L, sb, so⟩ : PaginationOptions K))).drop (p * L)).take L) := by
      apply List.map_congr_left
      intro p _
      exact htasks p
    rw [hmap]
    exact chunks_join L hL _ _ le_rfl

theorem getAll_pagination_correct_witness :
    (getAll [exampleDueTaskA, exampleDueTaskB] (none : Option TaskFilters)
      (some (⟨2, 1, some dueKey, some SortOrder.desc⟩ : PaginationOptions Int))).success =
        true ∧
    (getAllData [exampleDueTaskA, exampleDueTaskB] (none : Option TaskFilters)
      (some (⟨2, 1, some dueKey, some SortOrder.desc⟩ : PaginationOptions Int))).tasks =
      [exampleDueTaskB] := by
  have h := getAll_pagination_correct [exampleDueTaskA, exampleDueTaskB] none
    (⟨2, 1, some dueKey, some SortOrder.desc⟩ : PaginationOptions Int) (by decide) (by decide)
  refine ⟨h.1, ?_⟩
  rw [h.2.2.1]
  decide

theorem getAll_pages_cover_witness :
    ((List.range (ceilNat (pipeline [exampleDueTaskA, exampleDueTaskB]
          (none : Option TaskFilters)
          (some (⟨1, 1, some dueKey, some SortOrder.asc⟩ : PaginationOptions Int))).length
        1)).map
      (fun p => (getAllData [exampleDueTaskA, exampleDueTaskB] (none : Option TaskFilters)
        (some (⟨p + 1, 1, some dueKey, some SortOrder.asc⟩ : PaginationOptions Int))).tasks)).flatten =
      pipeline [exampleDueTaskA, exampleDueTaskB] (none : Option TaskFilters)
        (some (⟨1, 1, some dueKey, some SortOrder.asc⟩ : PaginationOptions Int)) :=
  (getAll_pages_cover [exampleDueTaskA, exampleDueTaskB] none (some dueKey)
    (some SortOrder.asc) 1 (by decide)).2

/-- A found index is in bounds and its element satisfies the predicate. -/
theorem findIndex_spec {α : Type} (p : α → Bool) (d : α) :
    ∀ (l : List α) (i : Nat), findIndex p l = some i →
      i < l.length ∧ p (l.getD i d) = true := by
  intro l
  induction l with
  | nil => intro i h; simp [findIndex] at h
  | cons a as ih =>
    intro i h
    by_cases hpa : p a = true
    · simp [findIndex, hpa] at h
      subst h
      exact ⟨by simp, by simpa using hpa⟩
    · simp [findIndex, hpa] at h
      obtain ⟨j, hj, hij⟩ := h
      obtain ⟨hlt, hget⟩ := ih j hj
      subst hij
      exact ⟨by simpa using hlt, by simpa using hget⟩

/-- Removing the element at `i` removes exactly its contribution to `countP`. -/
theorem countP_eraseIdx_add {α : Type} (p : α → Bool) (d : α) :
    ∀ (l : List α) (i : Nat), i < l.length →
      l.countP p = (l.eraseIdx i).countP p + (if p (l.getD i d) = true then 1 else 0) := by
  intro l
  induction l with
  | nil => intro i h; simp at h
  | cons a as ih =>
    intro i h
    cases i with
    | zero =>
      simp only [List.eraseIdx_cons_zero, List.getD_cons_zero, List.countP_cons]
    | succ j =>
      have hj : j < as.length := by simpa using h
      simp only [List.eraseIdx_cons_succ, List.getD_cons_succ, List.countP_cons]
      rw [ih j hj]
      split_ifs <;> omega

/-- Replacing an element by one with the same predicate value preserves `any`. -/
theorem any_set_same {α : Type} (p : α → Bool) (d : α) :
    ∀ (l : List α) (i : Nat) (x : α), i < l.length → p x = p (l.getD i d) →
      (l.set i x).any p = l.any p := by
  intro l
  induction l with
  | nil => intro i x h; simp at h
  | cons a as ih =>
    intro i x h hp
    cases i with
    | zero =>
      simp only [List.getD_cons_zero] at hp
      simp [List.set_cons_zero, hp]
    | succ j =>
      have hj : j < as.length := by simpa using h
      simp only [List.getD_cons_succ] at hp
      simp only [List.set_cons_succ, List.any_cons]
      rw [ih j x hj hp]

/-- `any` holds exactly when the `countP` count is positive. -/
theorem any_iff_countP {α : Type} (p : α → Bool) (l : List α) :
    l.any p = true ↔ 0 < l.countP p := by
  rw [List.any_eq_true, List.countP_pos_iff]

/-- C10: when an update payload makes the found task invalid, `update` returns
an unsuccessful response, yet the collection already stores the task with the
payload applied and a refreshed `updatedAt` — the mutation is not rolled
back. -/
theorem taskUpdate_not_atomic (s : TaskSvcState) (id : String) (u : TaskUpdates) (now : Int)
    (i : Nat) (hfind : findIndex (fun t => t.id == id) s.tasks = some i)
    (hbad : (taskValidate (applyTaskUpdates (s.tasks.getD i defTask) u now)).isValid = false) :
    (taskUpdate id u now s).1.success = false ∧
    (taskUpdate id u now s).2.tasks =
      s.tasks.set i (applyTaskUpdates (s.tasks.getD i defTask) u now) ∧
    (applyTaskUpdates (s.tasks.getD i defTask) u now).updatedAt = now := by
  unfold taskUpdate
  rw [hfind]
  simp only [hbad, Bool.false_eq_true, if_false]
  exact ⟨trivial, trivial, rfl⟩

/-- One-task state for the non-atomicity witness. -/
def exampleUpdState : TaskSvcState :=
  ⟨[⟨"task_1", "ok", none, Priority.medium, TaskStatus.todo, none, 0, 0, none, [], false⟩], 2⟩

/-- Update payload that empties the title, making the task invalid. -/
def exampleBadUpd : TaskUpdates :=
  ⟨some "", none, none, none, none, none, none⟩

theorem taskUpdate_not_atomic_witness :
    findIndex (fun t => t.id == "task_1") exampleUpdState.tasks = some 0 ∧
    (taskValidate (applyTaskUpdates (exampleUpdState.tasks.getD 0 defTask)
      exampleBadUpd 5)).isValid = false ∧
    (taskUpdate "task_1" exampleBadUpd 5 exampleUpdState).1.success = false ∧
    (taskUpdate "task_1" exampleBadUpd 5 exampleUpdState).2.tasks =
      [⟨"task_1", "", none, Priority.medium, TaskStatus.todo, none, 0, 5, none, [], false⟩] := by
  have h := taskUpdate_not_atomic exampleUpdState "task_1" exampleBadUpd 5 0
    (by decide) (by decide)
  refine ⟨by decide, by decide, h.1, ?_⟩
  rw [h.2.1]
  decide

/-- The claimed agreement between the derived flag and the status. -/
def taskAgrees (t : TaskModel) : Prop :=
  t.completed = true ↔ t.status = TaskStatus.done

/-- Every task of the service state satisfies the agreement. -/
def agreeInv (s : TaskSvcState) : Prop :=
  ∀ t ∈ s.tasks, taskAgrees t

/-- State after creating one task (`task_1`, TODO, not completed). -/
def exampleC1State : TaskSvcState :=
  (taskCreate ⟨"Demo", none, none, none, none, none⟩ 0 ⟨[], 1⟩).2

/-- Result of updating `task_1` with `{status: DONE}`. -/
def exampleC1Result : ApiResp TaskModel × TaskSvcState :=
  taskUpdate "task_1" ⟨none, none, none, none, none, none, some TaskStatus.done⟩ 1 exampleC1State

/-- C1 (counterexample): after `create` followed by `update` with
`{status: DONE}`, the stored task has status `DONE` but `completed = false` —
the update succeeds yet leaves the flag and the status out of agreement. -/
theorem taskUpdate_breaks_agreement :
    exampleC1Result.1.success = true ∧
    (exampleC1Result.2.tasks.getD 0 defTask).status = TaskStatus.done ∧
    (exampleC1Result.2.tasks.getD 0 defTask).completed = false := by
  refine ⟨by decide, by decide, by decide⟩

/-- C1 (amended): `create`, `markComplete`, `markIncomplete`, `delete`,
`clear`, and `update` without a status field all preserve the agreement
"completed iff status = DONE"; an `update` that sets `status` does not
synchronise `completed` and can break it. -/
theorem taskService_agreement_preserved :
    (∀ (input : TaskInput) (now : Int) (s : TaskSvcState),
      agreeInv s → agreeInv (taskCreate input now s).2) ∧
    (∀ (id : String) (now : Int) (s : TaskSvcState),
      agreeInv s → agreeInv (taskMarkComplete id now s).2) ∧
    (∀ (id : String) (now : Int) (s : TaskSvcState),
      agreeInv s → agreeInv (taskMarkIncomplete id now s).2) ∧
    (∀ (id : String) (s : TaskSvcState),
      agreeInv s → agreeInv (taskDelete id s).2) ∧
    (∀ s : TaskSvcState, agreeInv (taskClear s)) ∧
    (∀ (id : String) (u : TaskUpdates) (now : Int) (s : TaskSvcState),
      u.status = none → agreeInv s → agreeInv (taskUpdate id u now s).2) := by
  refine ⟨?_, ?_, ?_, ?_, ?_, ?_⟩
  · intro input now s hinv
    simp only [taskCreate]
    split_ifs with hv
    · intro t ht
      rcases List.mem_append.mp ht with ht | ht
      · exact hinv t ht
      · have heq : t = newTask input ("task_" ++ toString s.nextId) now := by simpa using ht
        subst heq
        simp [taskAgrees, newTask]
    · exact hinv
  · intro id now s hinv
    rcases hfind : findIndex (fun t => t.id == id) s.tasks with _ | i <;>
      simp only [taskMarkComplete, hfind]
    · exact hinv
    · intro t ht
      rcases List.mem_or_eq_of_mem_set ht with ht | ht
      · exact hinv t ht
      · subst ht
        simp [taskAgrees]
  · intro id now s hinv
    rcases hfind : findIndex (fun t => t.id == id) s.tasks with _ | i <;>
      simp only [taskMarkIncomplete, hfind]
    · exact hinv
    · intro t ht
      rcases List.mem_or_eq_of_mem_set ht with ht | ht
      · exact hinv t ht
      · subst ht
        simp [taskAgrees]
  · intro id s hinv
    rcases hfind : findIndex (fun t => t.id == id) s.tasks with _ | i <;>
      simp only [taskDelete, hfind]
    · exact hinv
    · intro t ht
      exact hinv t (List.eraseIdx_subset _ _ ht)
  · intro s t ht
    simp [taskClear] at ht
  · intro id u now s hst hinv
    rcases hfind : findIndex (fun t => t.id == id) s.tasks with _ | i <;>
      simp only [taskUpdate, hfind]
    · exact hinv
    · have hmem : s.tasks.getD i defTask ∈ s.tasks := by
        have hlt := (findIndex_spec (fun t => t.id == id) defTask s.tasks i hfind).1
        rw [List.getD_eq_getElem s.tasks defTask hlt]
        exact List.getElem_mem hlt
      have hagree : taskAgrees (applyTaskUpdates (s.tasks.getD i defTask) u now) := by
        have h0 := hinv _ hmem
        unfold taskAgrees at h0 ⊢
        unfold applyTaskUpdates
        simp only [hst, Option.getD_none]
        exact h0
      split_ifs with hv <;>
      · intro t ht
        rcases List.mem_or_eq_of_mem_set ht with ht | ht
        · exact hinv t ht
        · subst ht
          exact hagree

theorem taskService_agreement_witness :
    agreeInv exampleC1State ∧
    agreeInv (taskUpdate "task_1" ⟨some "New", none, none, none, none, none, none⟩ 2
      exampleC1State).2 := by
  have hinv : agreeInv exampleC1State := by
    unfold agreeInv taskAgrees
    decide
  exact ⟨hinv, taskService_agreement_preserved.2.2.2.2.2 "task_1"
    ⟨some "New", none, none, none, none, none, none⟩ 2 exampleC1State rfl hinv⟩

/-- Result of demoting the sole default admin through `update` with no
acting user. -/
def exampleC3Result : ApiResp UserModel × UserSvcState :=
  userUpdate "user_1" ⟨none, none, some UserRole.user, none, none⟩ none 1 (userSvcInit 0)

/-- C3 (counterexample): starting from the initial state with the default
admin, `UserService.update` with `{role: USER}` succeeds and leaves a state
with no admin at all — `update` does not enforce the invariant. -/
theorem userUpdate_breaks_admin_invariant :
    hasAdmin (userSvcInit 0) = true ∧
    exampleC3Result.1.success = true ∧
    hasAdmin exampleC3Result.2 = false := by
  refine ⟨by decide, by decide, by decide⟩

/-- `create` only ever appends a user, so an existing admin survives. -/
theorem userCreate_preserves_admin (input : UserInput) (createdBy : Option UserModel)
    (now : Int) (s : UserSvcState) (hs : hasAdmin s = true) :
    hasAdmin (userCreate input createdBy now s).2 = true := by
  simp only [hasAdmin] at hs ⊢
  simp only [userCreate]
  split_ifs with h1 h2 h3
  · exact hs
  · exact hs
  · simp [List.any_append, hs]
  · exact hs

/-- Implication form of `any_set_same`, convenient for `exact`. -/
theorem any_set_same_of {α : Type} (p : α → Bool) (d : α) (l : List α) (i : Nat) (x : α)
    (hlt : i < l.length) (hp : p x = p (l.getD i d)) (h : l.any p = true) :
    (l.set i x).any p = true := by
  rw [any_set_same p d l i x hlt hp]
  exact h

/-- `update` without a role change never alters any user's role. -/
theorem userUpdate_preserves_admin (id : String) (u : UserUpdates)
    (updatedBy : Option UserModel) (now : Int) (s : UserSvcState)
    (hrole : u.role = none) (hs : hasAdmin s = true) :
    hasAdmin (userUpdate id u updatedBy now s).2 = true := by
  simp only [hasAdmin] at hs ⊢
  rcases hfind : findIndex (fun x => x.id == id) s.users with _ | i <;>
    simp only [userUpdate, hfind]
  · exact hs
  · have hlt := (findIndex_spec (fun x => x.id == id) defUser s.users i hfind).1
    split_ifs with h1 h2 h3 h4
    · exact hs
    · exact hs
    · exact any_set_same_of _ defUser s.users i _ hlt rfl hs
    · exact any_set_same_of _ defUser s.users i _ hlt (by simp [hrole]) hs
    · exact any_set_same_of _ defUser s.users i _ hlt (by simp [hrole]) hs

/-- `delete` preserves the admin invariant: removing a non-admin keeps the
admin count, and removing an admin is only allowed when at least two exist. -/
theorem userDelete_preserves_admin (id : String) (deletedBy : Option UserModel)
    (s : UserSvcState) (hs : hasAdmin s = true) :
    hasAdmin (userDelete id deletedBy s).2 = true := by
  simp only [hasAdmin] at hs ⊢
  rcases hfind : findIndex (fun x => x.id == id) s.users with _ | i <;>
    simp only [userDelete, hfind]
  · exact hs
  · have hlt := (findIndex_spec (fun x => x.id == id) defUser s.users i hfind).1
    split_ifs with h1 h2
    · exact hs
    · exact hs
    · rw [any_iff_countP] at hs ⊢
      have hc := countP_eraseIdx_add (fun u => u.role == UserRole.admin) defUser s.users i hlt
      show 0 < List.countP (fun u => u.role == UserRole.admin) (s.users.eraseIdx i)
      by_cases hadm : ((s.users.getD i defUser).role == UserRole.admin) = true
      · have hguard : ¬((List.filter (fun x => x.role == UserRole.admin) s.users).length ≤ 1) := by
          intro hB
          apply h2
          rw [hadm]
          simpa using hB
        have hcount : 1 < List.countP (fun u => u.role == UserRole.admin) s.users := by
          rw [List.countP_eq_length_filter]
          omega
        rw [if_pos hadm] at hc
        omega
      · rw [if_neg hadm] at hc
        omega

/-- `authenticate` only records a login; roles are untouched. -/
theorem userAuthenticate_preserves_admin (email password : String) (now : Int)
    (s : UserSvcState) (hs : hasAdmin s = true) :
    hasAdmin (userAuthenticate email password now s).2 = true := by
  simp only [hasAdmin] at hs ⊢
  rcases hfind : findIndex (fun x => x.email == email) s.users with _ | i <;>
    simp only [userAuthenticate, hfind]
  · exact hs
  · have hlt := (findIndex_spec (fun x => x.email == email) defUser s.users i hfind).1
    split_ifs with h1 h2
    · exact hs
    · exact hs
    · exact any_set_same_of _ defUser s.users i _ hlt rfl hs

/-- `clear` keeps the first admin when one exists. -/
theorem userClear_preserves_admin (s : UserSvcState) (hs : hasAdmin s = true) :
    hasAdmin (userClear s) = true := by
  simp only [hasAdmin] at hs ⊢
  rcases hfindq : s.users.find? (fun x => x.role == UserRole.admin) with _ | a <;>
    simp only [userClear, hfindq]
  · rw [List.find?_eq_none] at hfindq
    rw [List.any_eq_true] at hs
    obtain ⟨x, hx, hpx⟩ := hs
    exact absurd hpx (hfindq x hx)
  · have := List.find?_some hfindq
    simp [this]

/-- Deleting the sole remaining admin is rejected and leaves the state
unchanged. -/
theorem userDelete_sole_admin_rejected (id : String) (s : UserSvcState) (i : Nat)
    (hfind : findIndex (fun x => x.id == id) s.users = some i)
    (hadm : (s.users.getD i defUser).role = UserRole.admin)
    (hcount : (s.users.filter (fun x => x.role == UserRole.admin)).length ≤ 1) :
    (userDelete id none s).1.success = false ∧ (userDelete id none s).2 = s := by
  simp only [userDelete, hfind]
  rw [if_neg (by simp)]
  have hguard : ((s.users.getD i defUser).role == UserRole.admin &&
      decide ((s.users.filter (fun x => x.role == UserRole.admin)).length ≤ 1)) = true := by
    rw [hadm]
    simp [hcount]
  rw [if_pos hguard]
  exact ⟨rfl, rfl⟩

/-- Deleting a found user succeeds when at least two admins exist (and no
acting user restricts permissions). -/
theorem userDelete_two_admins_succeeds (id : String) (s : UserSvcState) (i : Nat)
    (hfind : findIndex (fun x => x.id == id) s.users = some i)
    (hcount : 2 ≤ (s.users.filter (fun x => x.role == UserRole.admin)).length) :
    (userDelete id none s).1.success = true := by
  simp only [userDelete, hfind]
  rw [if_neg (by simp)]
  rw [if_neg (by simp; omega)]

/-- C3 (amended): the initial state has an admin, and `create`, `delete`,
`authenticate`, `clear`, and `update` without a role change preserve the
at-least-one-admin invariant; `delete` rejects removing the sole remaining
admin (leaving the state unchanged) and succeeds when two or more admins
exist.  `update` with a role change is excluded: it can demote the sole
admin (see the counterexample). -/
theorem userService_admin_invariant :
    (∀ now : Int, hasAdmin (userSvcInit now) = true) ∧
    (∀ (input : UserInput) (createdBy : Option UserModel) (now : Int) (s : UserSvcState),
      hasAdmin s = true → hasAdmin (userCreate input createdBy now s).2 = true) ∧
    (∀ (id : String) (u : UserUpdates) (updatedBy : Option UserModel) (now : Int)
      (s : UserSvcState), u.role = none → hasAdmin s = true →
      hasAdmin (userUpdate id u updatedBy now s).2 = true) ∧
    (∀ (id : String) (deletedBy : Option UserModel) (s : UserSvcState),
      hasAdmin s = true → hasAdmin (userDelete id deletedBy s).2 = true) ∧
    (∀ (email password : String) (now : Int) (s : UserSvcState),
      hasAdmin s = true → hasAdmin (userAuthenticate email password now s).2 = true) ∧
    (∀ s : UserSvcState, hasAdmin s = true → hasAdmin (userClear s) = true) ∧
    (∀ (id : String) (s : UserSvcState) (i : Nat),
      findIndex (fun x => x.id == id) s.users = some i →
      (s.users.getD i defUser).role = UserRole.admin →
      (s.users.filter (fun x => x.role == UserRole.admin)).length ≤ 1 →
      (userDelete id none s).1.success = false ∧ (userDelete id none s).2 = s) ∧
    (∀ (id : String) (s : UserSvcState) (i : Nat),
      findIndex (fun x => x.id == id) s.users = some i →
      2 ≤ (s.users.filter (fun x => x.role == UserRole.admin)).length →
      (userDelete id none s).1.success = true) :=
  ⟨fun _ => rfl,
   userCreate_preserves_admin,
   userUpdate_preserves_admin,
   userDelete_preserves_admin,
   userAuthenticate_preserves_admin,
   userClear_preserves_admin,
   userDelete_sole_admin_rejected,
   userDelete_two_admins_succeeds⟩

/-- A state with two admins, for the delete-succeeds witness. -/
def exampleTwoAdmins : UserSvcState :=
  ⟨[⟨"user_1", "System Administrator", "admin@taskmanager.com", UserRole.admin, true, 0,
      none, ⟨"dark", true, "en", "UTC"⟩, 0, false⟩,
    ⟨"user_2", "Second Admin", "admin2@taskmanager.com", UserRole.admin, true, 0,
      none, ⟨"light", true, "en", "UTC"⟩, 0, false⟩], 3⟩

theorem userService_admin_invariant_witness :
    hasAdmin (userSvcInit 0) = true ∧
    hasAdmin (userCreate ⟨"Bob", "bob@mail.com", none, none⟩ none 0 (userSvcInit 0)).2 = true ∧
    hasAdmin (userUpdate "user_1" ⟨some "Root", none, none, none, none⟩ none 1
      (userSvcInit 0)).2 = true ∧
    hasAdmin (userDelete "user_1" none (userSvcInit 0)).2 = true ∧
    hasAdmin (userAuthenticate "admin@taskmanager.com" "pw" 1 (userSvcInit 0)).2 = true ∧
    hasAdmin (userClear (userSvcInit 0)) = true ∧
    ((userDelete "user_1" none (userSvcInit 0)).1.success = false ∧
      (userDelete "user_1" none (userSvcInit 0)).2 = userSvcInit 0) ∧
    (userDelete "user_2" none exampleTwoAdmins).1.success = true := by
  have h := userService_admin_invariant
  exact ⟨h.1 0,
    h.2.1 ⟨"Bob", "bob@mail.com", none, none⟩ none 0 (userSvcInit 0) (by decide),
    h.2.2.1 "user_1" ⟨some "Root", none, none, none, none⟩ none 1 (userSvcInit 0) rfl
      (by decide),
    h.2.2.2.1 "user_1" none (userSvcInit 0) (by decide),
    h.2.2.2.2.1 "admin@taskmanager.com" "pw" 1 (userSvcInit 0) (by decide),
    h.2.2.2.2.2.1 (userSvcInit 0) (by decide),
    h.2.2.2.2.2.2.1 "user_1" (userSvcInit 0) 0 (by decide) (by decide) (by decide),
    h.2.2.2.2.2.2.2 "user_2" exampleTwoAdmins 1 (by decide) (by decide)⟩
